import Mathlib

/-!
Verification development for the Qeyloop AudioWorklet DSP engine
(`JsDspEngine` in the audio worklet processor source).

The engine state and its operations are embedded shallowly:

* JS numbers are modelled as real numbers (`ℝ`); integer-valued counters as
  `ℕ`/`ℤ`.
* The JS arrays `sounds` (64 slots) and `keyMappings` (256 slots) are
  modelled as total functions `ℤ → Option _`: `none` models the JS value
  `undefined` obtained when indexing outside the initialised range.
  Reading a property of `undefined` throws a `TypeError` in JS; operations
  that can do so return `Option Engine`, with `none` modelling the thrown
  exception.
* The fixed voice pool is `Fin 64 → Voice` (the source only ever indexes
  voices with loop counters `0 ≤ i < MAX_VOICES`).
-/

namespace Qeyloop

/-- Playback modes, from the `PlaybackMode` constant table. -/
inductive PlaybackMode where
  | singleShot
  | loop
deriving DecidableEq, Repr

/-- Overlap modes, from the `OverlapMode` constant table. -/
inductive OverlapMode where
  | polyphonic
  | monophonic
deriving DecidableEq, Repr

/-- Modulation presets, from the `ModulationPreset` constant table. -/
inductive ModulationPreset where
  | none
  | quarterSidechain
  | eighthSidechain
  | sixteenthSidechain
deriving DecidableEq, Repr

/-- One sound slot: `{ samples, length, loaded }`.  In the source `samples`
is `null` until loaded; it is only ever read when `loaded` is true, so an
unloaded slot simply carries the empty list. -/
structure Sound where
  samples : List ℝ
  length : ℕ
  loaded : Bool
deriving Inhabited

/-- One voice of the fixed pool. -/
structure Voice where
  soundIndex : ℤ
  position : ℝ
  active : Bool
  volume : ℝ
  pitch : ℝ
  mode : PlaybackMode
  groupId : ℤ
  keyCode : ℤ
  modulationEnabled : Bool

/-- One key mapping entry. -/
structure KeyMapping where
  soundIndex : ℤ
  mode : PlaybackMode
  overlapMode : OverlapMode
  groupId : ℤ
  volume : ℝ
  pitchSemitones : ℝ
  modulationEnabled : Bool
  hasSound : Bool

/-- The whole `JsDspEngine` state. -/
structure Engine where
  sampleRate : ℝ
  bpm : ℝ
  globalSamplePosition : ℕ
  metronomeEnabled : Bool
  metronomeVolume : ℝ
  modulationPreset : ModulationPreset
  masterVolume : ℝ
  sounds : ℤ → Option Sound
  voices : Fin 64 → Voice
  keyMappings : ℤ → Option KeyMapping

/-- Initial voice object from the engine constructor. -/
def initVoice : Voice where
  soundIndex := 0
  position := 0
  active := false
  volume := 1
  pitch := 1
  mode := PlaybackMode.singleShot
  groupId := 0
  keyCode := 0
  modulationEnabled := false

/-- Initial key mapping from the engine constructor. -/
def initMapping : KeyMapping where
  soundIndex := 0
  mode := PlaybackMode.singleShot
  overlapMode := OverlapMode.polyphonic
  groupId := 0
  volume := 1
  pitchSemitones := 0
  modulationEnabled := false
  hasSound := false

/-- The engine constructor `new JsDspEngine(sampleRate)`. -/
def initEngine (sampleRate : ℝ) : Engine where
  sampleRate := sampleRate
  bpm := 120
  globalSamplePosition := 0
  metronomeEnabled := false
  metronomeVolume := 0.5
  modulationPreset := ModulationPreset.none
  masterVolume := 1
  sounds := fun i => if 0 ≤ i ∧ i < 64 then some { samples := [], length := 0, loaded := false } else Option.none
  voices := fun _ => initVoice
  keyMappings := fun i => if 0 ≤ i ∧ i < 256 then some initMapping else Option.none

/-- Clamp to the unit interval, `Math.max(0, Math.min(1, v))`. -/
noncomputable def clamp01 (v : ℝ) : ℝ := max 0 (min 1 v)

/-- Clamp to the semitone range, `Math.max(-24, Math.min(24, v))`. -/
noncomputable def clampPitch (v : ℝ) : ℝ := max (-24) (min 24 v)

/-- The `load_sound` command.  The source only rejects `soundIndex >= MAX_SOUNDS`;
every other index (negative ones included) is written through, which on a JS
array creates an out-of-table property. -/
def load_sound (e : Engine) (soundIndex : ℤ) (samples : List ℝ) : Engine :=
  if 64 ≤ soundIndex then e
  else
    let slot : Sound := { samples := samples, length := samples.length, loaded := true }
    { e with sounds := Function.update e.sounds soundIndex (some slot) }

/-- Evaluation of `soundIndex < MAX_SOUNDS && this.sounds[soundIndex].loaded`
(the short-circuiting `&&` never dereferences the slot when the first test
fails); `none` models the `TypeError` thrown when `sounds[soundIndex]` is
`undefined`. -/
def soundIsLoaded (e : Engine) (soundIndex : ℤ) : Option Bool :=
  if soundIndex < 64 then
    match e.sounds soundIndex with
    | some s => some s.loaded
    | Option.none => Option.none
  else some false

/-- The `set_key_mapping` command.  A key outside the initialised table makes
the very first field write throw, modelled by `none`; likewise the `hasSound`
computation can throw for a negative `soundIndex` whose slot was never
written.  (In JS the exception would leave the mapping partially mutated; no
claim observes the post-exception state, so the model simply reports the
failure.) -/
noncomputable def set_key_mapping (e : Engine) (keyCode soundIndex : ℤ) (mode : PlaybackMode)
    (overlapMode : OverlapMode) (groupId : ℤ) (volume pitchSemitones : ℝ)
    (modulationEnabled : Bool) : Option Engine :=
  match e.keyMappings keyCode with
  | Option.none => Option.none
  | some _ =>
    match soundIsLoaded e soundIndex with
    | Option.none => Option.none
    | some loaded =>
      let m : KeyMapping :=
        { soundIndex := soundIndex
          mode := mode
          overlapMode := overlapMode
          groupId := groupId
          volume := clamp01 volume
          pitchSemitones := clampPitch pitchSemitones
          modulationEnabled := modulationEnabled
          hasSound := decide (soundIndex < 64) && loaded }
      some { e with keyMappings := Function.update e.keyMappings keyCode (some m) }

/-- The `set_key_mode` command. -/
def set_key_mode (e : Engine) (keyCode : ℤ) (mode : PlaybackMode) : Option Engine :=
  (e.keyMappings keyCode).map fun m =>
    let m2 : KeyMapping := { m with mode := mode }
    { e with keyMappings := Function.update e.keyMappings keyCode (some m2) }

/-- The `set_key_modulation` command. -/
def set_key_modulation (e : Engine) (keyCode : ℤ) (enabled : Bool) : Option Engine :=
  (e.keyMappings keyCode).map fun m =>
    let m2 : KeyMapping := { m with modulationEnabled := enabled }
    { e with keyMappings := Function.update e.keyMappings keyCode (some m2) }

/-- The `set_key_volume` command. -/
noncomputable def set_key_volume (e : Engine) (keyCode : ℤ) (volume : ℝ) : Option Engine :=
  (e.keyMappings keyCode).map fun m =>
    let m2 : KeyMapping := { m with volume := clamp01 volume }
    { e with keyMappings := Function.update e.keyMappings keyCode (some m2) }

/-- The `set_key_pitch` command. -/
noncomputable def set_key_pitch (e : Engine) (keyCode : ℤ) (semitones : ℝ) : Option Engine :=
  (e.keyMappings keyCode).map fun m =>
    let m2 : KeyMapping := { m with pitchSemitones := clampPitch semitones }
    { e with keyMappings := Function.update e.keyMappings keyCode (some m2) }

/-- The `set_key_overlap` command (writes both `overlapMode` and `groupId`). -/
def set_key_overlap (e : Engine) (keyCode : ℤ) (mode : OverlapMode) (groupId : ℤ) :
    Option Engine :=
  (e.keyMappings keyCode).map fun m =>
    let m2 : KeyMapping := { m with overlapMode := mode, groupId := groupId }
    { e with keyMappings := Function.update e.keyMappings keyCode (some m2) }

/-- The monophonic cut loop inside `note_on`: deactivate every active voice
whose group id matches. -/
def cutGroup (vs : Fin 64 → Voice) (g : ℤ) : Fin 64 → Voice := fun i =>
  if (vs i).active = true ∧ (vs i).groupId = g then { vs i with active := false } else vs i

/-- The free-voice scan inside `note_on`: first index (lowest wins) whose
voice is inactive. -/
def firstFree (vs : Fin 64 → Voice) : Option (Fin 64) :=
  (List.finRange 64).find? fun i => !(vs i).active

/-- The voice field initialisation performed by `note_on` on the voice it
allocates. -/
noncomputable def spawnVoice (m : KeyMapping) (keyCode : ℤ) : Voice where
  soundIndex := m.soundIndex
  position := 0
  active := true
  volume := m.volume
  pitch := (2 : ℝ) ^ (m.pitchSemitones / 12)
  mode := m.mode
  groupId := m.groupId
  keyCode := keyCode
  modulationEnabled := m.modulationEnabled

/-- The `note_on` command.  Reading `mapping.hasSound` of an `undefined`
mapping throws, modelled by `none`. -/
noncomputable def note_on (e : Engine) (keyCode : ℤ) : Option Engine :=
  match e.keyMappings keyCode with
  | Option.none => Option.none
  | some mapping =>
    if mapping.hasSound = false then some e
    else
      let vs := if mapping.overlapMode = OverlapMode.monophonic then
          cutGroup e.voices mapping.groupId
        else e.voices
      match firstFree vs with
      | Option.none => some { e with voices := vs }
      | some i => some { e with voices := Function.update vs i (spawnVoice mapping keyCode) }

/-- The `note_off` command: never indexes a table by key, hence total. -/
def note_off (e : Engine) (keyCode : ℤ) : Engine :=
  { e with voices := fun i =>
      if (e.voices i).active = true ∧ (e.voices i).keyCode = keyCode ∧
          (e.voices i).mode = PlaybackMode.loop then
        { e.voices i with active := false }
      else e.voices i }

/-- The `panic` command. -/
def panic (e : Engine) : Engine :=
  { e with voices := fun i => { e.voices i with active := false }, globalSamplePosition := 0 }

/-- The `get_active_voice_count` query. -/
def get_active_voice_count (e : Engine) : ℕ :=
  (Finset.univ.filter fun i : Fin 64 => (e.voices i).active = true).card

/-- Truncation toward zero, the rounding JS uses for the `%` operator. -/
noncomputable def jsTrunc (x : ℝ) : ℤ := if 0 ≤ x then ⌊x⌋ else ⌈x⌉

/-- The JS remainder operator `a % b` on numbers (floating remainder with
truncated quotient).  For `b = 0` JS yields `NaN`; the engine always guards
that case, so the `b = 0` value of this model is never relied upon. -/
noncomputable def jsMod (a b : ℝ) : ℝ := a - b * (jsTrunc (a / b) : ℝ)

/-- JS `Math.round`: half-up rounding, `⌊x + 1/2⌋`. -/
noncomputable def jsRound (x : ℝ) : ℤ := ⌊x + 1 / 2⌋

/-- Tail of `calculateModulation`: the zero-cycle guard and the sidechain
attack/release envelope, as a function of the cycle length and the transport
position.  (`Math.pow(x, 0.5)` is `Real.sqrt`.) -/
noncomputable def sidechainValue (samplesPerCycle p : ℝ) : ℝ :=
  if samplesPerCycle = 0 then 1
  else
    let cyclePos := jsMod p samplesPerCycle / samplesPerCycle
    if cyclePos < 0.1 then 0.1 + cyclePos / 0.1 * 0.3
    else
      let releasePos := (cyclePos - 0.1) / 0.9
      0.4 + Real.sqrt releasePos * 0.6

/-- The `calculateModulation` method. -/
noncomputable def calculateModulation (e : Engine) : ℝ :=
  if e.modulationPreset = ModulationPreset.none then 1
  else
    let samplesPerBeat : ℤ := ⌊e.sampleRate * 60 / e.bpm⌋
    let samplesPerCycle : ℝ :=
      match e.modulationPreset with
      | ModulationPreset.quarterSidechain => (samplesPerBeat : ℝ)
      | ModulationPreset.eighthSidechain => (samplesPerBeat : ℝ) / 2
      | ModulationPreset.sixteenthSidechain => (samplesPerBeat : ℝ) / 4
      | ModulationPreset.none => 0
    sidechainValue samplesPerCycle (e.globalSamplePosition : ℝ)

/-- The `generateMetronomeSample` method. -/
noncomputable def generateMetronomeSample (e : Engine) : ℝ :=
  if e.metronomeEnabled = false then 0
  else
    let samplesPerBeat : ℤ := ⌊e.sampleRate * 60 / e.bpm⌋
    if samplesPerBeat = 0 then 0
    else
      let posInBeat : ℝ := jsMod (e.globalSamplePosition : ℝ) (samplesPerBeat : ℝ)
      let clickSamples : ℤ := ⌊e.sampleRate * 0.01⌋
      if posInBeat < (clickSamples : ℝ) then
        let t := posInBeat / e.sampleRate
        let freq : ℝ :=
          if jsMod (e.globalSamplePosition : ℝ) ((samplesPerBeat : ℝ) * 4) < (samplesPerBeat : ℝ)
            then 1500 else 1000
        let envelope := 1 - posInBeat / (clickSamples : ℝ)
        Real.sin (t * freq * Real.pi * 2) * envelope * e.metronomeVolume
      else 0

/-- The `softClip` method. -/
noncomputable def softClip (x : ℝ) : ℝ :=
  if |x| < 0.5 then x
  else if x > 0 then 0.5 + (1 - Real.exp (-2 * (x - 0.5))) * 0.5
  else -0.5 - (1 - Real.exp (2 * (x + 0.5))) * 0.5

/-- One voice's contribution during one output frame of `process`: returns
the updated voice together with the value it adds to the frame mix.  `none`
models the `TypeError` thrown when `sounds[voice.soundIndex]` is `undefined`
(only possible for a voice whose sound index points outside the table). -/
noncomputable def voiceFrame (sampleRate bpm : ℝ) (sounds : ℤ → Option Sound) (modulation : ℝ)
    (v : Voice) : Option (Voice × ℝ) :=
  if v.active = false then some (v, 0)
  else
    match sounds v.soundIndex with
    | Option.none => Option.none
    | some sound =>
      if sound.loaded = false then some ({ v with active := false }, 0)
      else
        let posFloor : ℤ := ⌊v.position⌋
        let posFrac : ℝ := v.position - (posFloor : ℝ)
        if (sound.length : ℤ) ≤ posFloor then
          if v.mode = PlaybackMode.loop then
            some ({ v with position := v.position - (sound.length : ℝ) }, 0)
          else
            some ({ v with active := false }, 0)
        else
          let quantWrap : Option Voice :=
            if v.mode = PlaybackMode.loop then
              let samplesPerBeat : ℤ := ⌊sampleRate * 60 / bpm⌋
              let samplesPerEighth : ℝ := (samplesPerBeat : ℝ) / 2
              let soundDuration : ℝ := (sound.length : ℝ) / v.pitch
              let eighthNotes : ℤ := jsRound (soundDuration / samplesPerEighth)
              let targetLength : ℝ := (eighthNotes : ℝ) * samplesPerEighth
              if targetLength ≤ v.position ∧ 0 < targetLength then
                some { v with position := jsMod v.position targetLength }
              else Option.none
            else Option.none
          match quantWrap with
          | some v2 => some (v2, 0)
          | Option.none =>
            let s1 : ℝ := sound.samples.getD posFloor.toNat 0
            let s2 : ℝ :=
              if posFloor + 1 < (sound.length : ℤ) then sound.samples.getD (posFloor + 1).toNat 0
              else s1
            let interpolated := s1 + (s2 - s1) * posFrac
            let voiceMod : ℝ := if v.modulationEnabled = true then modulation else 1
            some ({ v with position := v.position + v.pitch }, interpolated * v.volume * voiceMod)

/-- The inner voice-mixing loop of `process` for one frame, iterating the
pool indices in order and threading the mutated pool and the running sum. -/
noncomputable def mixVoices (sampleRate bpm : ℝ) (sounds : ℤ → Option Sound) (modulation : ℝ) :
    List (Fin 64) → (Fin 64 → Voice) → ℝ → Option ((Fin 64 → Voice) × ℝ)
  | [], vs, acc => some (vs, acc)
  | i :: rest, vs, acc =>
    match voiceFrame sampleRate bpm sounds modulation (vs i) with
    | Option.none => Option.none
    | some (v2, c) => mixVoices sampleRate bpm sounds modulation rest (Function.update vs i v2) (acc + c)

/-- One frame of `process`: mix the voices, add the metronome, apply master
volume and soft clipping; the engine advances `globalSamplePosition` and
keeps the mutated pool.  The returned real is the mono sample written to
both interleaved channels. -/
noncomputable def processFrame (e : Engine) : Option (Engine × ℝ) :=
  let modulation := calculateModulation e
  match mixVoices e.sampleRate e.bpm e.sounds modulation (List.finRange 64) e.voices 0 with
  | Option.none => Option.none
  | some (vs, sample) =>
    let sample := sample + generateMetronomeSample e
    let out := softClip (sample * e.masterVolume)
    some ({ e with voices := vs, globalSamplePosition := e.globalSamplePosition + 1 }, out)

/-- The `process` method over a buffer of `frames` frames: the output list is
the interleaved stereo buffer (each frame writes its mono sample twice). -/
noncomputable def processBlock (e : Engine) : ℕ → Option (Engine × List ℝ)
  | 0 => some (e, [])
  | n + 1 =>
    match processFrame e with
    | Option.none => Option.none
    | some (e2, s) =>
      match processBlock e2 n with
      | Option.none => Option.none
      | some (e3, out) => some (e3, s :: s :: out)

/-- Engine equality on every field except `sounds`. -/
def AgreesExceptSounds (e e2 : Engine) : Prop :=
  e2.sampleRate = e.sampleRate ∧ e2.bpm = e.bpm ∧
  e2.globalSamplePosition = e.globalSamplePosition ∧
  e2.metronomeEnabled = e.metronomeEnabled ∧ e2.metronomeVolume = e.metronomeVolume ∧
  e2.modulationPreset = e.modulationPreset ∧ e2.masterVolume = e.masterVolume ∧
  e2.voices = e.voices ∧ e2.keyMappings = e.keyMappings

/-- Engine equality on every field except `keyMappings`. -/
def AgreesExceptMappings (e e2 : Engine) : Prop :=
  e2.sampleRate = e.sampleRate ∧ e2.bpm = e.bpm ∧
  e2.globalSamplePosition = e.globalSamplePosition ∧
  e2.metronomeEnabled = e.metronomeEnabled ∧ e2.metronomeVolume = e.metronomeVolume ∧
  e2.modulationPreset = e.modulationPreset ∧ e2.masterVolume = e.masterVolume ∧
  e2.voices = e.voices ∧ e2.sounds = e.sounds

/-- Engine equality on every field except `voices`. -/
def AgreesExceptVoices (e e2 : Engine) : Prop :=
  e2.sampleRate = e.sampleRate ∧ e2.bpm = e.bpm ∧
  e2.globalSamplePosition = e.globalSamplePosition ∧
  e2.metronomeEnabled = e.metronomeEnabled ∧ e2.metronomeVolume = e.metronomeVolume ∧
  e2.modulationPreset = e.modulationPreset ∧ e2.masterVolume = e.masterVolume ∧
  e2.sounds = e.sounds ∧ e2.keyMappings = e.keyMappings

/-- C3 counterexample input: loading into slot `-1` is not a state-preserving
no-op: the guard only rejects indices `≥ 64`, so the write goes through and
creates an out-of-table entry at index `-1` (in JS, a `"-1"` property on the
`sounds` array), observable by a later `set_key_mapping` with that index. -/
theorem load_sound_negative_slot_not_noop :
    (load_sound (initEngine 48000) (-1) [0]).sounds (-1) ≠ (initEngine 48000).sounds (-1) := by
  simp [load_sound, initEngine, Function.update_apply]

/-- C3 (amended): `load_sound` is a no-op exactly for slots `≥ 64`; a negative
slot leaves every table slot `0 ≤ j` unchanged but records an out-of-table
entry at the negative index; a slot in `[0, 64)` is overwritten with the new
samples and `loaded := true`, leaving every other index and all other engine
state unchanged. -/
theorem load_sound_range_behavior :
    (∀ (e : Engine) (i : ℤ) (s : List ℝ), 64 ≤ i → load_sound e i s = e) ∧
    (∀ (e : Engine) (i : ℤ) (s : List ℝ), i < 0 →
      (∀ j, 0 ≤ j → (load_sound e i s).sounds j = e.sounds j) ∧
      (load_sound e i s).sounds i =
        some { samples := s, length := s.length, loaded := true }) ∧
    (∀ (e : Engine) (i : ℤ) (s : List ℝ), 0 ≤ i → i < 64 →
      (load_sound e i s).sounds i =
        some { samples := s, length := s.length, loaded := true } ∧
      (∀ j, j ≠ i → (load_sound e i s).sounds j = e.sounds j)) ∧
    (∀ (e : Engine) (i : ℤ) (s : List ℝ), AgreesExceptSounds e (load_sound e i s)) := by
  refine ⟨?_, ?_, ?_, ?_⟩
  · intro e i s hi
    simp [load_sound, hi]
  · intro e i s hi
    constructor
    · intro j hj
      have hne : j ≠ i := by omega
      simp [load_sound, Function.update_apply, hne, show ¬(64 ≤ i) by omega]
    · simp [load_sound, Function.update_apply, show ¬(64 ≤ i) by omega]
  · intro e i s h0 h64
    constructor
    · simp [load_sound, Function.update_apply, show ¬(64 ≤ i) by omega]
    · intro j hj
      simp [load_sound, Function.update_apply, hj, show ¬(64 ≤ i) by omega]
  · intro e i s
    unfold load_sound AgreesExceptSounds
    split <;> simp

/-- C3 witness: the amended theorem applied at the initial engine, slot 70
(an upper-range no-op). -/
theorem load_sound_range_behavior_witness :
    load_sound (initEngine 48000) 70 [0] = initEngine 48000 :=
  load_sound_range_behavior.1 (initEngine 48000) 70 [0] (by norm_num)

/-- C6: `note_off` deactivates exactly the active voices whose `keyCode`
matches and whose mode is `loop`; single-shot voices, voices on other keys,
the non-`active` fields of every voice, and all non-voice engine state are
unchanged. -/
theorem note_off_loop_only (e : Engine) (k : ℤ) :
    (∀ i, ((note_off e k).voices i).active = true ↔
      ((e.voices i).active = true ∧
        ¬((e.voices i).keyCode = k ∧ (e.voices i).mode = PlaybackMode.loop))) ∧
    (∀ i, (e.voices i).mode = PlaybackMode.singleShot →
      (note_off e k).voices i = e.voices i) ∧
    (∀ i, (e.voices i).keyCode ≠ k → (note_off e k).voices i = e.voices i) ∧
    (∀ i, ((note_off e k).voices i).position = (e.voices i).position ∧
      ((note_off e k).voices i).soundIndex = (e.voices i).soundIndex ∧
      ((note_off e k).voices i).volume = (e.voices i).volume ∧
      ((note_off e k).voices i).pitch = (e.voices i).pitch ∧
      ((note_off e k).voices i).mode = (e.voices i).mode ∧
      ((note_off e k).voices i).groupId = (e.voices i).groupId ∧
      ((note_off e k).voices i).keyCode = (e.voices i).keyCode ∧
      ((note_off e k).voices i).modulationEnabled = (e.voices i).modulationEnabled) ∧
    AgreesExceptVoices e (note_off e k) := by
  refine ⟨?_, ?_, ?_, ?_, ?_⟩
  · intro i
    unfold note_off
    dsimp only
    split
    · rename_i h
      simp [h.2.1, h.2.2]
    · rename_i h
      constructor
      · intro ha
        refine ⟨ha, ?_⟩
        intro hk
        exact h ⟨ha, hk.1, hk.2⟩
      · intro ha
        exact ha.1
  · intro i hm
    unfold note_off
    dsimp only
    split
    · rename_i h
      rw [hm] at h
      cases h.2.2
    · rfl
  · intro i hk
    unfold note_off
    dsimp only
    split
    · rename_i h
      exact absurd h.2.1 hk
    · rfl
  · intro i
    unfold note_off
    dsimp only
    split <;> simp
  · unfold note_off AgreesExceptVoices
    simp

/-- C6 witness: the theorem applied at the initial engine and key 0; the
initial pool is inactive, so voice 0 stays inactive after `note_off`. -/
theorem note_off_loop_only_witness :
    ((note_off (initEngine 48000) 0).voices 0).active = false := by
  have h := (note_off_loop_only (initEngine 48000) 0).1 0
  have : ¬(((note_off (initEngine 48000) 0).voices 0).active = true) := by
    rw [h]
    simp [initEngine, initVoice]
  simpa using this

/-- C2 counterexample input: a key identifier outside `[0, 256)` makes
`set_key_mode` throw (`this.keyMappings[256]` is `undefined` and the field
write raises a `TypeError`), modelled by the `none` result. -/
theorem control_command_raises_on_invalid_key :
    set_key_mode (initEngine 48000) 256 PlaybackMode.singleShot = Option.none := by
  simp [set_key_mode, initEngine]

/-- C2 (amended): the key-mapping table is fully populated on `[0, 256)` and
the sound table on `[0, 64)`; on a key whose mapping exists the narrow
setters, `set_key_overlap` and `note_on` never fail for any argument values,
and `set_key_mapping` never fails for any non-negative sound index provided
the in-range sound slots exist.  A key outside `[0, 256)` raises (previous
theorem), as does `set_key_mapping` with a negative sound index whose slot
was never written. -/
theorem control_commands_total_on_valid_keys :
    (∀ (r : ℝ) (k : ℤ), 0 ≤ k → k < 256 → ((initEngine r).keyMappings k).isSome = true) ∧
    (∀ (r : ℝ) (j : ℤ), 0 ≤ j → j < 64 → ((initEngine r).sounds j).isSome = true) ∧
    (∀ (e : Engine) (k : ℤ), (e.keyMappings k).isSome = true →
      ∀ (md : PlaybackMode) (vol pit : ℝ) (en : Bool) (om : OverlapMode) (g : ℤ),
        (set_key_mode e k md).isSome = true ∧
        (set_key_volume e k vol).isSome = true ∧
        (set_key_pitch e k pit).isSome = true ∧
        (set_key_modulation e k en).isSome = true ∧
        (set_key_overlap e k om g).isSome = true ∧
        (note_on e k).isSome = true) ∧
    (∀ (e : Engine) (k si : ℤ) (md : PlaybackMode) (om : OverlapMode) (g : ℤ)
        (vol pit : ℝ) (en : Bool),
      (e.keyMappings k).isSome = true → 0 ≤ si →
      (∀ j, 0 ≤ j → j < 64 → (e.sounds j).isSome = true) →
      (set_key_mapping e k si md om g vol pit en).isSome = true) := by
  refine ⟨?_, ?_, ?_, ?_⟩
  · intro r k h0 h256
    simp [initEngine, h0, h256]
  · intro r j h0 h64
    simp [initEngine, h0, h64]
  · intro e k hk md vol pit en om g
    obtain ⟨m, hm⟩ := Option.isSome_iff_exists.mp hk
    refine ⟨by simp [set_key_mode, hm], by simp [set_key_volume, hm],
      by simp [set_key_pitch, hm], by simp [set_key_modulation, hm],
      by simp [set_key_overlap, hm], ?_⟩
    simp only [note_on, hm]
    split
    · simp
    · cases firstFree (if m.overlapMode = OverlapMode.monophonic then
        cutGroup e.voices m.groupId else e.voices) <;> simp
  · intro e k si md om g vol pit en hk hsi hsounds
    obtain ⟨m, hm⟩ := Option.isSome_iff_exists.mp hk
    simp only [set_key_mapping, hm]
    rcases lt_or_le si 64 with h64 | h64
    · obtain ⟨slot, hslot⟩ := Option.isSome_iff_exists.mp (hsounds si hsi h64)
      simp [soundIsLoaded, h64, hslot]
    · simp [soundIsLoaded, show ¬(si < 64) by omega]

/-- C2 witness: the amended theorem applied at the initial engine and key 0:
`set_key_mode` succeeds. -/
theorem control_commands_total_on_valid_keys_witness :
    (set_key_mode (initEngine 48000) 0 PlaybackMode.loop).isSome = true :=
  (control_commands_total_on_valid_keys.2.2.1 (initEngine 48000) 0
    (control_commands_total_on_valid_keys.1 48000 0 (by norm_num) (by norm_num))
    PlaybackMode.loop 0 0 false OverlapMode.polyphonic 0).1

/-- Mapping equality on every field except `mode`. -/
def MappingEqExceptMode (m m2 : KeyMapping) : Prop :=
  m2.soundIndex = m.soundIndex ∧ m2.overlapMode = m.overlapMode ∧ m2.groupId = m.groupId ∧
  m2.volume = m.volume ∧ m2.pitchSemitones = m.pitchSemitones ∧
  m2.modulationEnabled = m.modulationEnabled ∧ m2.hasSound = m.hasSound

/-- Mapping equality on every field except `volume`. -/
def MappingEqExceptVolume (m m2 : KeyMapping) : Prop :=
  m2.soundIndex = m.soundIndex ∧ m2.mode = m.mode ∧ m2.overlapMode = m.overlapMode ∧
  m2.groupId = m.groupId ∧ m2.pitchSemitones = m.pitchSemitones ∧
  m2.modulationEnabled = m.modulationEnabled ∧ m2.hasSound = m.hasSound

/-- Mapping equality on every field except `pitchSemitones`. -/
def MappingEqExceptPitch (m m2 : KeyMapping) : Prop :=
  m2.soundIndex = m.soundIndex ∧ m2.mode = m.mode ∧ m2.overlapMode = m.overlapMode ∧
  m2.groupId = m.groupId ∧ m2.volume = m.volume ∧
  m2.modulationEnabled = m.modulationEnabled ∧ m2.hasSound = m.hasSound

/-- Mapping equality on every field except `modulationEnabled`. -/
def MappingEqExceptModulation (m m2 : KeyMapping) : Prop :=
  m2.soundIndex = m.soundIndex ∧ m2.mode = m.mode ∧ m2.overlapMode = m.overlapMode ∧
  m2.groupId = m.groupId ∧ m2.volume = m.volume ∧ m2.pitchSemitones = m.pitchSemitones ∧
  m2.hasSound = m.hasSound

/-- Mapping equality on every field except the overlap pair
(`overlapMode`, `groupId`). -/
def MappingEqExceptOverlapPair (m m2 : KeyMapping) : Prop :=
  m2.soundIndex = m.soundIndex ∧ m2.mode = m.mode ∧ m2.volume = m.volume ∧
  m2.pitchSemitones = m.pitchSemitones ∧ m2.modulationEnabled = m.modulationEnabled ∧
  m2.hasSound = m.hasSound

/-- C9 counterexample input: `set_key_overlap` on the initial engine changes
both `overlapMode` and `groupId` of the targeted mapping, so it does not
update exactly one field. -/
theorem set_key_overlap_changes_two_fields :
    ((((set_key_overlap (initEngine 48000) 0 OverlapMode.monophonic 5).getD
        (initEngine 48000)).keyMappings 0).getD initMapping).overlapMode ≠
      (((initEngine 48000).keyMappings 0).getD initMapping).overlapMode ∧
    ((((set_key_overlap (initEngine 48000) 0 OverlapMode.monophonic 5).getD
        (initEngine 48000)).keyMappings 0).getD initMapping).groupId ≠
      (((initEngine 48000).keyMappings 0).getD initMapping).groupId := by
  constructor <;>
    simp [set_key_overlap, initEngine, initMapping, Function.update_apply]

/-- C9 (amended): `set_key_mode`, `set_key_volume`, `set_key_pitch` and
`set_key_modulation` each update exactly one field of the targeted key's
mapping (the numeric ones to the clamped value), and `set_key_overlap`
updates exactly the pair `overlapMode`/`groupId`; in all five cases every
other field of that mapping (including `hasSound`), every other key's
mapping, and all non-mapping engine state are unchanged. -/
theorem narrow_setters_frame (e : Engine) (k : ℤ) (m : KeyMapping)
    (hm : e.keyMappings k = some m) :
    (∀ md, ∀ e2, set_key_mode e k md = some e2 →
      ((e2.keyMappings k).getD m).mode = md ∧
      MappingEqExceptMode m ((e2.keyMappings k).getD m) ∧
      (∀ j, j ≠ k → e2.keyMappings j = e.keyMappings j) ∧
      AgreesExceptMappings e e2) ∧
    (∀ vol, ∀ e2, set_key_volume e k vol = some e2 →
      ((e2.keyMappings k).getD m).volume = clamp01 vol ∧
      MappingEqExceptVolume m ((e2.keyMappings k).getD m) ∧
      (∀ j, j ≠ k → e2.keyMappings j = e.keyMappings j) ∧
      AgreesExceptMappings e e2) ∧
    (∀ pit, ∀ e2, set_key_pitch e k pit = some e2 →
      ((e2.keyMappings k).getD m).pitchSemitones = clampPitch pit ∧
      MappingEqExceptPitch m ((e2.keyMappings k).getD m) ∧
      (∀ j, j ≠ k → e2.keyMappings j = e.keyMappings j) ∧
      AgreesExceptMappings e e2) ∧
    (∀ en, ∀ e2, set_key_modulation e k en = some e2 →
      ((e2.keyMappings k).getD m).modulationEnabled = en ∧
      MappingEqExceptModulation m ((e2.keyMappings k).getD m) ∧
      (∀ j, j ≠ k → e2.keyMappings j = e.keyMappings j) ∧
      AgreesExceptMappings e e2) ∧
    (∀ om g, ∀ e2, set_key_overlap e k om g = some e2 →
      ((e2.keyMappings k).getD m).overlapMode = om ∧
      ((e2.keyMappings k).getD m).groupId = g ∧
      MappingEqExceptOverlapPair m ((e2.keyMappings k).getD m) ∧
      (∀ j, j ≠ k → e2.keyMappings j = e.keyMappings j) ∧
      AgreesExceptMappings e e2) := by
  refine ⟨?_, ?_, ?_, ?_, ?_⟩
  · intro md e2 h2
    simp only [set_key_mode, hm, Option.map_some', Option.some.injEq] at h2
    subst h2
    refine ⟨?_, ?_, ?_, ?_⟩
    · simp [Function.update_apply]
    · simp [MappingEqExceptMode, Function.update_apply]
    · intro j hj
      simp [Function.update_apply, hj]
    · simp [AgreesExceptMappings]
  · intro vol e2 h2
    simp only [set_key_volume, hm, Option.map_some', Option.some.injEq] at h2
    subst h2
    refine ⟨?_, ?_, ?_, ?_⟩
    · simp [Function.update_apply]
    · simp [MappingEqExceptVolume, Function.update_apply]
    · intro j hj
      simp [Function.update_apply, hj]
    · simp [AgreesExceptMappings]
  · intro pit e2 h2
    simp only [set_key_pitch, hm, Option.map_some', Option.some.injEq] at h2
    subst h2
    refine ⟨?_, ?_, ?_, ?_⟩
    · simp [Function.update_apply]
    · simp [MappingEqExceptPitch, Function.update_apply]
    · intro j hj
      simp [Function.update_apply, hj]
    · simp [AgreesExceptMappings]
  · intro en e2 h2
    simp only [set_key_modulation, hm, Option.map_some', Option.some.injEq] at h2
    subst h2
    refine ⟨?_, ?_, ?_, ?_⟩
    · simp [Function.update_apply]
    · simp [MappingEqExceptModulation, Function.update_apply]
    · intro j hj
      simp [Function.update_apply, hj]
    · simp [AgreesExceptMappings]
  · intro om g e2 h2
    simp only [set_key_overlap, hm, Option.map_some', Option.some.injEq] at h2
    subst h2
    refine ⟨?_, ?_, ?_, ?_, ?_⟩
    · simp [Function.update_apply]
    · simp [Function.update_apply]
    · simp [MappingEqExceptOverlapPair, Function.update_apply]
    · intro j hj
      simp [Function.update_apply, hj]
    · simp [AgreesExceptMappings]

/-- C9 witness: the amended theorem applied at the initial engine, key 3,
`set_key_mode` to `loop`. -/
theorem narrow_setters_frame_witness :
    ((((set_key_mode (initEngine 48000) 3 PlaybackMode.loop).getD
        (initEngine 48000)).keyMappings 3).getD initMapping).mode = PlaybackMode.loop := by
  have hm : (initEngine 48000).keyMappings 3 = some initMapping := by
    simp [initEngine]
  have h := (narrow_setters_frame (initEngine 48000) 3 initMapping hm).1 PlaybackMode.loop
  cases h2 : set_key_mode (initEngine 48000) 3 PlaybackMode.loop with
  | none =>
    rw [set_key_mode, hm] at h2
    cases h2
  | some e2 =>
    have := (h e2 h2).1
    simpa [h2] using this

/-- Activity after the monophonic cut: a voice stays active iff it was
active and not in the cut group. -/
theorem cutGroup_active_iff (vs : Fin 64 → Voice) (g : ℤ) (i : Fin 64) :
    (cutGroup vs g i).active = true ↔ ((vs i).active = true ∧ (vs i).groupId ≠ g) := by
  unfold cutGroup
  split
  · rename_i h
    simp [h.1, h.2]
  · rename_i h
    constructor
    · intro ha
      refine ⟨ha, fun hg => h ⟨ha, hg⟩⟩
    · intro h2
      exact h2.1

/-- The monophonic cut never changes a voice's key code. -/
theorem cutGroup_keyCode (vs : Fin 64 → Voice) (g : ℤ) (i : Fin 64) :
    (cutGroup vs g i).keyCode = (vs i).keyCode := by
  unfold cutGroup
  split <;> rfl

/-- The monophonic cut never changes a voice's group id. -/
theorem cutGroup_groupId (vs : Fin 64 → Voice) (g : ℤ) (i : Fin 64) :
    (cutGroup vs g i).groupId = (vs i).groupId := by
  unfold cutGroup
  split <;> rfl

/-- What one monophonic `note_on` does to the pool: it succeeds, leaves
mappings and sounds alone, and there is an optional allocated index holding
the freshly initialised voice while every other index holds the cut pool. -/
theorem note_on_mono_step (e : Engine) (k g : ℤ) (m : KeyMapping)
    (hm : e.keyMappings k = some m) (hs : m.hasSound = true)
    (ho : m.overlapMode = OverlapMode.monophonic) (hg : m.groupId = g) :
    ∃ e2, note_on e k = some e2 ∧ e2.keyMappings = e.keyMappings ∧ e2.sounds = e.sounds ∧
      ∃ alloc : Option (Fin 64),
        ∀ i, (alloc = some i → e2.voices i = spawnVoice m k) ∧
          (alloc ≠ some i → e2.voices i = cutGroup e.voices g i) := by
  subst hg
  simp only [note_on, hm]
  rw [if_neg (by simp [hs]), if_pos ho]
  cases hf : firstFree (cutGroup e.voices m.groupId) with
  | none =>
    refine ⟨_, rfl, rfl, rfl, Option.none, ?_⟩
    intro i
    constructor
    · intro h
      cases h
    · intro h
      rfl
  | some j =>
    refine ⟨_, rfl, rfl, rfl, some j, ?_⟩
    intro i
    constructor
    · intro h
      have hij : j = i := Option.some.inj h
      subst hij
      simp [Function.update_same]
    · intro h
      have hij : i ≠ j := fun hc => h (by rw [hc])
      simp [Function.update_noteq hij]

/-- C4: the pool never reports more than 64 active voices, and a `note_on`
arriving when all 64 voices are active — and whose mapping triggers no
monophonic-group cut — returns the engine unchanged (the note is dropped). -/
theorem voice_pool_bound_and_full_drop :
    (∀ e : Engine, get_active_voice_count e ≤ 64) ∧
    (∀ (e : Engine) (k : ℤ) (m : KeyMapping),
      e.keyMappings k = some m → m.hasSound = true →
      (∀ i, (e.voices i).active = true) →
      (m.overlapMode = OverlapMode.monophonic → ∀ i, (e.voices i).groupId ≠ m.groupId) →
      note_on e k = some e) := by
  constructor
  · intro e
    calc (Finset.univ.filter fun i : Fin 64 => (e.voices i).active = true).card
        ≤ (Finset.univ : Finset (Fin 64)).card := Finset.card_filter_le _ _
      _ = 64 := by simp
  · intro e k m hm hs hall hng
    simp only [note_on, hm]
    rw [if_neg (by simp [hs])]
    have hvs : (if m.overlapMode = OverlapMode.monophonic then
        cutGroup e.voices m.groupId else e.voices) = e.voices := by
      split
      · rename_i ho
        funext i
        unfold cutGroup
        rw [if_neg]
        intro hcond
        exact hng ho i hcond.2
      · rfl
    rw [hvs]
    have hff : firstFree e.voices = Option.none := by
      unfold firstFree
      rw [List.find?_eq_none]
      intro i _
      simp [hall i]
    rw [hff]

/-- C4 witness input: every voice active, key 0 mapped with a sound and
polyphonic overlap. -/
def fullPoolEngine : Engine :=
  { initEngine 48000 with
    voices := fun _ => { initVoice with active := true },
    keyMappings := fun i =>
      if 0 ≤ i ∧ i < 256 then some { initMapping with hasSound := true } else Option.none }

/-- C4 witness: on the full pool, the count is within bound and the note-on
for key 0 is dropped without changing the engine. -/
theorem voice_pool_bound_and_full_drop_witness :
    get_active_voice_count fullPoolEngine ≤ 64 ∧ note_on fullPoolEngine 0 = some fullPoolEngine :=
  ⟨voice_pool_bound_and_full_drop.1 fullPoolEngine,
    voice_pool_bound_and_full_drop.2 fullPoolEngine 0 { initMapping with hasSound := true }
      (by simp [fullPoolEngine]) rfl (fun i => rfl)
      (by intro h; simp [initMapping] at h)⟩

/-- C5: from a pool whose active voices keyed by `a` or `b` all carry the
shared group id, `note_on a` then `note_on b` on two monophonic mappings
with that group id leaves at most one active voice keyed `a` or `b`, and any
such voice is keyed `b` (last writer wins). -/
theorem monophonic_exclusivity (e : Engine) (a b g : ℤ) (ma mb : KeyMapping)
    (hma : e.keyMappings a = some ma) (hmb : e.keyMappings b = some mb)
    (hsa : ma.hasSound = true) (hsb : mb.hasSound = true)
    (hoa : ma.overlapMode = OverlapMode.monophonic)
    (hob : mb.overlapMode = OverlapMode.monophonic)
    (hga : ma.groupId = g) (hgb : mb.groupId = g)
    (hclean : ∀ i, (e.voices i).active = true →
      ((e.voices i).keyCode = a ∨ (e.voices i).keyCode = b) → (e.voices i).groupId = g) :
    (((note_on e a).bind fun e1 => note_on e1 b).isSome = true) ∧
    (∀ e2, ((note_on e a).bind fun e1 => note_on e1 b) = some e2 →
      (∀ i, (e2.voices i).active = true →
        ((e2.voices i).keyCode = a ∨ (e2.voices i).keyCode = b) →
        (e2.voices i).keyCode = b) ∧
      (Finset.univ.filter fun i => (e2.voices i).active = true ∧
        ((e2.voices i).keyCode = a ∨ (e2.voices i).keyCode = b)).card ≤ 1) := by
  obtain ⟨e1, h1, hk1, hs1, alloc1, hA1⟩ := note_on_mono_step e a g ma hma hsa hoa hga
  have hmb1 : e1.keyMappings b = some mb := by rw [hk1, hmb]
  obtain ⟨e2, h2, hk2, hs2, alloc2, hA2⟩ := note_on_mono_step e1 b g mb hmb1 hsb hob hgb
  have hbind : ((note_on e a).bind fun e1 => note_on e1 b) = some e2 := by
    rw [h1]
    simpa using h2
  -- every surviving voice keyed a or b is the allocation of the second call
  have key : ∀ i, (e2.voices i).active = true →
      ((e2.voices i).keyCode = a ∨ (e2.voices i).keyCode = b) → alloc2 = some i := by
    intro i hact hkey
    by_contra hne
    have hcut2 : e2.voices i = cutGroup e1.voices g i := (hA2 i).2 hne
    rw [hcut2] at hact hkey
    have h1act := (cutGroup_active_iff e1.voices g i).mp hact
    rw [cutGroup_keyCode] at hkey
    rcases halloc1 : alloc1 with _ | j
    · have hcut1 : e1.voices i = cutGroup e.voices g i := (hA1 i).2 (by rw [halloc1]; intro h; cases h)
      rw [hcut1] at h1act hkey
      have h0act := (cutGroup_active_iff e.voices g i).mp h1act.1
      rw [cutGroup_keyCode] at hkey
      rw [cutGroup_groupId] at h1act
      exact h1act.2 (hclean i h0act.1 hkey)
    · by_cases hij : j = i
      · subst hij
        have hsp : e1.voices j = spawnVoice ma a := (hA1 j).1 (by rw [halloc1])
        rw [hsp] at h1act
        exact h1act.2 (by simp [spawnVoice, hga])
      · have hcut1 : e1.voices i = cutGroup e.voices g i := by
          refine (hA1 i).2 ?_
          rw [halloc1]
          intro h
          exact hij (Option.some.inj h)
        rw [hcut1] at h1act hkey
        have h0act := (cutGroup_active_iff e.voices g i).mp h1act.1
        rw [cutGroup_keyCode] at hkey
        rw [cutGroup_groupId] at h1act
        exact h1act.2 (hclean i h0act.1 hkey)
  refine ⟨by rw [hbind]; rfl, ?_⟩
  intro e2x hx
  have hex : e2x = e2 := by
    rw [hbind] at hx
    exact (Option.some.inj hx).symm
  subst hex
  constructor
  · intro i hact hkey
    have hal := key i hact hkey
    have hsp : e2x.voices i = spawnVoice mb b := (hA2 i).1 hal
    rw [hsp]
    rfl
  · rw [Finset.card_le_one]
    intro i hi j hj
    simp only [Finset.mem_filter] at hi hj
    have hai := key i hi.2.1 hi.2.2
    have haj := key j hj.2.1 hj.2.2
    rw [hai] at haj
    exact Option.some.inj haj

/-- C5 witness input: a monophonic mapping on group 1 with a sound. -/
def monoMapping : KeyMapping :=
  { initMapping with hasSound := true, overlapMode := OverlapMode.monophonic, groupId := 1 }

/-- C5 witness input: keys 0 and 1 both carry `monoMapping`, empty pool. -/
def monoEngine : Engine :=
  { initEngine 48000 with
    keyMappings := fun i => if 0 ≤ i ∧ i < 256 then some monoMapping else Option.none }

/-- C5 witness: the exclusivity theorem applied to keys 0 and 1 of the
monophonic engine; the double note-on succeeds. -/
theorem monophonic_exclusivity_witness :
    ((note_on monoEngine 0).bind fun e1 => note_on e1 1).isSome = true :=
  (monophonic_exclusivity monoEngine 0 1 1 monoMapping monoMapping
    (by simp [monoEngine]) (by simp [monoEngine]) rfl rfl rfl rfl rfl rfl
    (by intro i h; simp [monoEngine, initEngine, initVoice] at h)).1

/-- The positive saturation branch of `softClip`. -/
noncomputable def softClipPos (x : ℝ) : ℝ := 0.5 + (1 - Real.exp (-2 * (x - 0.5))) * 0.5

/-- The negative saturation branch of `softClip`. -/
noncomputable def softClipNeg (x : ℝ) : ℝ := -0.5 - (1 - Real.exp (2 * (x + 0.5))) * 0.5

/-- In the linear region the clip is the identity. -/
theorem softClip_of_abs_lt {x : ℝ} (h : |x| < 0.5) : softClip x = x := by
  unfold softClip
  rw [if_pos h]

/-- At and above one half the positive branch is taken. -/
theorem softClip_of_ge {x : ℝ} (h : (0.5 : ℝ) ≤ x) : softClip x = softClipPos x := by
  unfold softClip softClipPos
  rw [if_neg, if_pos (by linarith)]
  intro hc
  have := le_abs_self x
  linarith

/-- At and below minus one half the negative branch is taken. -/
theorem softClip_of_le {x : ℝ} (h : x ≤ -(0.5 : ℝ)) : softClip x = softClipNeg x := by
  unfold softClip softClipNeg
  rw [if_neg, if_neg (by linarith)]
  intro hc
  have := neg_abs_le x
  linarith

/-- The positive branch agrees with the identity at the junction. -/
theorem softClipPos_half : softClipPos 0.5 = 0.5 := by
  unfold softClipPos
  norm_num

/-- The negative branch agrees with the identity at the junction. -/
theorem softClipNeg_neg_half : softClipNeg (-0.5) = -0.5 := by
  unfold softClipNeg
  norm_num

/-- Closed-region piecewise description of `softClip`, used to derive
continuity. -/
theorem softClip_eq_piecewise : softClip = fun x : ℝ =>
    if x ≤ -(0.5 : ℝ) then softClipNeg x else if x ≤ (0.5 : ℝ) then x else softClipPos x := by
  funext x
  by_cases h1 : x ≤ -(0.5 : ℝ)
  · rw [if_pos h1, softClip_of_le h1]
  · push_neg at h1
    rw [if_neg (by linarith)]
    by_cases h2 : x ≤ (0.5 : ℝ)
    · rw [if_pos h2]
      rcases eq_or_lt_of_le h2 with he | hlt
      · rw [he, softClip_of_ge le_rfl, softClipPos_half]
      · exact softClip_of_abs_lt (abs_lt.mpr ⟨by linarith, hlt⟩)
    · push_neg at h2
      rw [if_neg (by linarith), softClip_of_ge (le_of_lt h2)]

/-- C7: the soft clip is the identity strictly inside the linear region,
strictly bounded by 1 in absolute value everywhere, continuous, and odd
(the two saturation branches mirror each other). -/
theorem soft_clip_spec :
    (∀ x : ℝ, |x| < 0.5 → softClip x = x) ∧
    (∀ x : ℝ, |softClip x| < 1) ∧
    Continuous softClip ∧
    (∀ x : ℝ, softClip (-x) = -softClip x) := by
  refine ⟨fun x h => softClip_of_abs_lt h, ?_, ?_, ?_⟩
  · intro x
    by_cases h : |x| < 0.5
    · rw [softClip_of_abs_lt h]
      exact h.trans (by norm_num)
    · push_neg at h
      rcases le_abs.mp h with hx | hx
      · rw [softClip_of_ge hx, abs_lt]
        unfold softClipPos
        have he1 : Real.exp (-2 * (x - 0.5)) ≤ 1 := Real.exp_le_one_iff.mpr (by linarith)
        have he0 : 0 < Real.exp (-2 * (x - 0.5)) := Real.exp_pos _
        constructor <;> linarith
      · rw [softClip_of_le (by linarith), abs_lt]
        unfold softClipNeg
        have he1 : Real.exp (2 * (x + 0.5)) ≤ 1 := Real.exp_le_one_iff.mpr (by linarith)
        have he0 : 0 < Real.exp (2 * (x + 0.5)) := Real.exp_pos _
        constructor <;> linarith
  · rw [softClip_eq_piecewise]
    have hpos : Continuous softClipPos := by
      unfold softClipPos
      continuity
    have hneg : Continuous softClipNeg := by
      unfold softClipNeg
      continuity
    have hinner : Continuous fun x : ℝ => if x ≤ (0.5 : ℝ) then x else softClipPos x := by
      refine Continuous.if_le continuous_id hpos continuous_id continuous_const ?_
      intro x hx
      simp only [id_eq, hx]
      rw [softClipPos_half]
    refine Continuous.if_le hneg hinner continuous_id continuous_const ?_
    intro x hx
    simp only [id_eq] at hx
    rw [hx, softClipNeg_neg_half, if_pos (by norm_num : (-0.5 : ℝ) ≤ 0.5)]
  · intro x
    by_cases h : |x| < 0.5
    · rw [softClip_of_abs_lt h, softClip_of_abs_lt (by rwa [abs_neg])]
    · push_neg at h
      rcases le_abs.mp h with hx | hx
      · rw [softClip_of_ge hx, softClip_of_le (by linarith)]
        unfold softClipPos softClipNeg
        have harg : 2 * (-x + 0.5) = -2 * (x - 0.5) := by ring
        rw [harg]
        ring
      · have h1 : softClip (-x) = softClipPos (-x) := softClip_of_ge hx
        have h2 : softClip x = softClipNeg x := softClip_of_le (by linarith)
        rw [h1, h2]
        unfold softClipPos softClipNeg
        have harg : -2 * (-x - 0.5) = 2 * (x + 0.5) := by ring
        rw [harg]
        ring

/-- C7 witness: the spec applied at the inputs 1/4 (linear region) and 3
(saturated region). -/
theorem soft_clip_spec_witness :
    |(1 / 4 : ℝ)| < 0.5 ∧ softClip (1 / 4) = 1 / 4 ∧ |softClip 3| < 1 :=
  ⟨by rw [abs_of_nonneg] <;> norm_num,
    soft_clip_spec.1 (1 / 4) (by rw [abs_of_nonneg] <;> norm_num),
    soft_clip_spec.2.1 3⟩

/-- The JS remainder of a non-negative number by a positive number lies in
`[0, b)`. -/
theorem jsMod_nonneg_lt {a b : ℝ} (ha : 0 ≤ a) (hb : 0 < b) :
    0 ≤ jsMod a b ∧ jsMod a b < b := by
  unfold jsMod jsTrunc
  rw [if_pos (div_nonneg ha hb.le)]
  have key : a - b * (⌊a / b⌋ : ℝ) = b * Int.fract (a / b) := by
    rw [Int.fract, mul_sub, mul_div_cancel₀ a (ne_of_gt hb)]
  rw [key]
  constructor
  · exact mul_nonneg hb.le (Int.fract_nonneg _)
  · calc b * Int.fract (a / b) < b * 1 :=
        (mul_lt_mul_left hb).mpr (Int.fract_lt_one _)
    _ = b := mul_one b

/-- The sidechain envelope tail always produces a value in `[0.1, 1]` for a
non-negative cycle length and transport position. -/
theorem sidechainValue_range {c p : ℝ} (hc : 0 ≤ c) (hp : 0 ≤ p) :
    0.1 ≤ sidechainValue c p ∧ sidechainValue c p ≤ 1 := by
  unfold sidechainValue
  by_cases hc0 : c = 0
  · rw [if_pos hc0]
    norm_num
  · rw [if_neg hc0]
    have hcpos : 0 < c := lt_of_le_of_ne hc (Ne.symm hc0)
    obtain ⟨hm0, hm1⟩ := jsMod_nonneg_lt hp hcpos
    set phase := jsMod p c / c with hphase
    have h0 : 0 ≤ phase := div_nonneg hm0 hcpos.le
    have h1 : phase < 1 := (div_lt_one hcpos).mpr hm1
    by_cases hatt : phase < 0.1
    · rw [if_pos hatt]
      have ha0 : 0 ≤ phase / 0.1 := div_nonneg h0 (by norm_num)
      have ha1 : phase / 0.1 < 1 := (div_lt_one (by norm_num)).mpr hatt
      constructor <;> nlinarith
    · rw [if_neg hatt]
      push_neg at hatt
      have hr0 : 0 ≤ (phase - 0.1) / 0.9 := div_nonneg (by linarith) (by norm_num)
      have hr1 : (phase - 0.1) / 0.9 < 1 := (div_lt_one (by norm_num)).mpr (by linarith)
      have hs0 : 0 ≤ Real.sqrt ((phase - 0.1) / 0.9) := Real.sqrt_nonneg _
      have hs1 : Real.sqrt ((phase - 0.1) / 0.9) < 1 := by
        rw [Real.sqrt_lt' (by norm_num : (0:ℝ) < 1)]
        simpa using hr1
      constructor <;> nlinarith

/-- C8: with any non-`none` preset, any bpm in the clamped range `[20, 300]`
and a non-negative sample rate, the modulation multiplier always lies in
`[0.1, 1]`. -/
theorem modulation_range (e : Engine) (hpre : e.modulationPreset ≠ ModulationPreset.none)
    (hb1 : 20 ≤ e.bpm) (hb2 : e.bpm ≤ 300) (hr : 0 ≤ e.sampleRate) :
    0.1 ≤ calculateModulation e ∧ calculateModulation e ≤ 1 := by
  have hbpos : (0 : ℝ) < e.bpm := by linarith
  have hquot : (0 : ℝ) ≤ e.sampleRate * 60 / e.bpm :=
    div_nonneg (mul_nonneg hr (by norm_num)) hbpos.le
  have hspb : (0 : ℝ) ≤ (⌊e.sampleRate * 60 / e.bpm⌋ : ℤ) := by
    exact_mod_cast Int.floor_nonneg.mpr hquot
  have hpos : (0 : ℝ) ≤ (e.globalSamplePosition : ℝ) := Nat.cast_nonneg _
  unfold calculateModulation
  rw [if_neg hpre]
  cases hc : e.modulationPreset with
  | none => exact absurd hc hpre
  | quarterSidechain => exact sidechainValue_range hspb hpos
  | eighthSidechain => exact sidechainValue_range (by positivity) hpos
  | sixteenthSidechain => exact sidechainValue_range (by positivity) hpos

/-- C8 witness input: quarter-note sidechain at the default transport. -/
def modEngine : Engine :=
  { initEngine 48000 with modulationPreset := ModulationPreset.quarterSidechain }

/-- C8 witness: the range theorem applied to the quarter-sidechain engine. -/
theorem modulation_range_witness :
    0.1 ≤ calculateModulation modEngine ∧ calculateModulation modEngine ≤ 1 :=
  modulation_range modEngine (by simp [modEngine])
    (by norm_num [modEngine, initEngine]) (by norm_num [modEngine, initEngine])
    (by norm_num [modEngine, initEngine])

/-- An inactive voice contributes nothing and is untouched. -/
theorem voiceFrame_inactive (sr bpm : ℝ) (sounds : ℤ → Option Sound) (modulation : ℝ)
    (v : Voice) (hact : v.active = false) :
    voiceFrame sr bpm sounds modulation v = some (v, 0) := by
  unfold voiceFrame
  rw [if_pos hact]

/-- The raw-length wrap branch: an active loop voice whose floored position
has reached the buffer length wraps by subtracting the raw length and
contributes silence for this frame. -/
theorem voiceFrame_rawWrap (sr bpm : ℝ) (sounds : ℤ → Option Sound) (modulation : ℝ)
    (v : Voice) (sound : Sound) (hact : v.active = true)
    (hsnd : sounds v.soundIndex = some sound) (hld : sound.loaded = true)
    (hpos : (sound.length : ℤ) ≤ ⌊v.position⌋) (hloop : v.mode = PlaybackMode.loop) :
    voiceFrame sr bpm sounds modulation v =
      some ({ v with position := v.position - (sound.length : ℝ) }, 0) := by
  unfold voiceFrame
  rw [if_neg (by simp [hact]), hsnd]
  simp only
  rw [if_neg (by simp [hld]), if_pos hpos, if_pos hloop]

/-- The interpolation branch: an active loop-or-single-shot voice strictly
inside the buffer whose quantised-wrap test fails plays one interpolated
sample and advances by its pitch. -/
theorem voiceFrame_play (sr bpm : ℝ) (sounds : ℤ → Option Sound) (modulation : ℝ)
    (v : Voice) (sound : Sound) (hact : v.active = true)
    (hsnd : sounds v.soundIndex = some sound) (hld : sound.loaded = true)
    (hpos : ⌊v.position⌋ < (sound.length : ℤ))
    (hquant : v.mode = PlaybackMode.loop →
      ¬(((jsRound ((sound.length : ℝ) / v.pitch / ((⌊sr * 60 / bpm⌋ : ℤ) / 2 : ℝ)) : ℤ) : ℝ) *
            ((⌊sr * 60 / bpm⌋ : ℤ) / 2 : ℝ) ≤ v.position ∧
        0 < ((jsRound ((sound.length : ℝ) / v.pitch / ((⌊sr * 60 / bpm⌋ : ℤ) / 2 : ℝ)) : ℤ) : ℝ) *
            ((⌊sr * 60 / bpm⌋ : ℤ) / 2 : ℝ))) :
    ∃ c, voiceFrame sr bpm sounds modulation v =
      some ({ v with position := v.position + v.pitch }, c) := by
  unfold voiceFrame
  rw [if_neg (by simp [hact]), hsnd]
  simp only
  rw [if_neg (by simp [hld]), if_neg (by omega)]
  cases hmode : v.mode with
  | loop =>
    rw [if_pos rfl]
    rw [if_neg (hquant hmode)]
    exact ⟨_, rfl⟩
  | singleShot =>
    rw [if_neg (by simp)]
    exact ⟨_, rfl⟩

/-- Unfolding equation for one step of the mixing loop. -/
theorem mixVoices_cons (sr bpm : ℝ) (sounds : ℤ → Option Sound) (modulation : ℝ)
    (i : Fin 64) (rest : List (Fin 64)) (vs : Fin 64 → Voice) (acc : ℝ) (v2 : Voice) (c2 : ℝ)
    (h : voiceFrame sr bpm sounds modulation (vs i) = some (v2, c2)) :
    mixVoices sr bpm sounds modulation (i :: rest) vs acc =
      mixVoices sr bpm sounds modulation rest (Function.update vs i v2) (acc + c2) := by
  rw [mixVoices, h]

/-- Unfolding equation for `processFrame` once the mixing loop's result is
known. -/
theorem processFrame_eq_of_mix (e : Engine) (vs : Fin 64 → Voice) (sample : ℝ)
    (h : mixVoices e.sampleRate e.bpm e.sounds (calculateModulation e)
      (List.finRange 64) e.voices 0 = some (vs, sample)) :
    processFrame e =
      some ({ e with voices := vs, globalSamplePosition := e.globalSamplePosition + 1 },
        softClip ((sample + generateMetronomeSample e) * e.masterVolume)) := by
  unfold processFrame
  dsimp only
  rw [h]

/-- Unfolding equation for `processBlock` once the first frame and the rest
of the block are known. -/
theorem processBlock_succ_of_frame (e : Engine) (n : ℕ) (e2 : Engine) (s : ℝ)
    (h : processFrame e = some (e2, s)) (e3 : Engine) (out : List ℝ)
    (h2 : processBlock e2 n = some (e3, out)) :
    processBlock e (n + 1) = some (e3, s :: s :: out) := by
  rw [processBlock, h]
  dsimp only
  rw [h2]

/-- Characterisation of the sequential voice-mixing loop when every visited
voice's one-frame behaviour is known: the loop succeeds, each visited index
is replaced by its stepped voice, and the contributions accumulate. -/
theorem mixVoices_eq (sr bpm : ℝ) (sounds : ℤ → Option Sound) (modulation : ℝ)
    (l : List (Fin 64)) :
    ∀ (vs g : Fin 64 → Voice) (c : Fin 64 → ℝ) (acc : ℝ), l.Nodup →
      (∀ i ∈ l, voiceFrame sr bpm sounds modulation (vs i) = some (g i, c i)) →
      mixVoices sr bpm sounds modulation l vs acc =
        some ((fun j => if j ∈ l then g j else vs j), acc + (l.map c).sum) := by
  induction l with
  | nil =>
    intro vs g c acc hnd hall
    simp [mixVoices]
  | cons i rest ih =>
    intro vs g c acc hnd hall
    have hhead := hall i (List.mem_cons_self i rest)
    rw [mixVoices_cons sr bpm sounds modulation i rest vs acc (g i) (c i) hhead]
    have hni : i ∉ rest := (List.nodup_cons.mp hnd).1
    have hall2 : ∀ j ∈ rest,
        voiceFrame sr bpm sounds modulation ((Function.update vs i (g i)) j) = some (g j, c j) := by
      intro j hj
      have hji : j ≠ i := fun h => hni (h ▸ hj)
      rw [Function.update_noteq hji]
      exact hall j (List.mem_cons_of_mem _ hj)
    rw [ih _ g c _ (List.nodup_cons.mp hnd).2 hall2]
    refine congrArg some (Prod.ext ?_ ?_)
    · funext j
      by_cases hj : j ∈ rest
      · simp [hj, List.mem_cons]
      · by_cases hji : j = i
        · subst hji
          simp [hj, Function.update_same]
        · simp [hj, hji, Function.update_noteq hji, List.mem_cons]
    · simp only [List.map_cons, List.sum_cons]
      ring

/-- One frame of `process` on an idle engine: nothing is written and only
the transport advances. -/
theorem processFrame_idle (e : Engine) (hidle : ∀ i, (e.voices i).active = false)
    (hmet : e.metronomeEnabled = false) :
    processFrame e = some ({ e with globalSamplePosition := e.globalSamplePosition + 1 }, 0) := by
  have hmix := mixVoices_eq e.sampleRate e.bpm e.sounds (calculateModulation e)
    (List.finRange 64) e.voices e.voices (fun _ => 0) 0 (List.nodup_finRange 64)
    (fun i _ => voiceFrame_inactive _ _ _ _ _ (hidle i))
  have hmix0 : mixVoices e.sampleRate e.bpm e.sounds (calculateModulation e)
      (List.finRange 64) e.voices 0 = some (e.voices, 0) := by
    rw [hmix]
    refine congrArg some (Prod.ext ?_ ?_)
    · funext j
      simp
    · simp
  have hmet0 : generateMetronomeSample e = 0 := by
    unfold generateMetronomeSample
    rw [if_pos hmet]
  have hclip : softClip ((0 + generateMetronomeSample e) * e.masterVolume) = 0 := by
    rw [hmet0]
    rw [show ((0 : ℝ) + 0) * e.masterVolume = 0 by ring]
    rw [softClip_of_abs_lt (by norm_num)]
  rw [processFrame_eq_of_mix e e.voices 0 hmix0, hclip]

/-- C10: on an engine with no active voice and the metronome disabled —
whatever the master volume, bpm or modulation preset — `process` writes
exactly zero to every output slot, advances the transport by the frame
count, and changes nothing else. -/
theorem idle_process_silence (e : Engine) (n : ℕ)
    (hidle : ∀ i, (e.voices i).active = false) (hmet : e.metronomeEnabled = false) :
    processBlock e n =
      some ({ e with globalSamplePosition := e.globalSamplePosition + n },
        List.replicate (2 * n) 0) := by
  induction n generalizing e with
  | zero => rfl
  | succ n ih =>
    rw [processBlock_succ_of_frame e n _ 0 (processFrame_idle e hidle hmet) _ _
      (ih { e with globalSamplePosition := e.globalSamplePosition + 1 } hidle hmet)]
    have hpos : e.globalSamplePosition + 1 + n = e.globalSamplePosition + (n + 1) := by omega
    have hrep : List.replicate (2 * (n + 1)) (0 : ℝ) =
        0 :: 0 :: List.replicate (2 * n) 0 := by
      rw [show 2 * (n + 1) = (2 * n) + 1 + 1 by ring]
      rfl
    rw [hpos, hrep]

/-- C10 witness: two frames on the freshly constructed engine. -/
theorem idle_process_silence_witness :
    processBlock (initEngine 48000) 2 = some ({ initEngine 48000 with
      globalSamplePosition := (initEngine 48000).globalSamplePosition + 2 },
      List.replicate 4 0) :=
  idle_process_silence (initEngine 48000) 2 (fun _ => rfl) rfl

/-- Scenario C sound table: slot 0 holds the 11000-sample loop sound, the
other slots are as freshly constructed. -/
def c1sounds (smp : List ℝ) : ℤ → Option Sound := fun i =>
  if i = 0 then some { samples := smp, length := smp.length, loaded := true }
  else if 0 ≤ i ∧ i < 64 then some { samples := [], length := 0, loaded := false }
  else Option.none

/-- Scenario C voice: an active loop voice on slot 0 at pitch multiplier 1
(pitch 0 semitones), parameterised by its playback position. -/
def c1voice (p : ℝ) : Voice where
  soundIndex := 0
  position := p
  active := true
  volume := 1
  pitch := 1
  mode := PlaybackMode.loop
  groupId := 0
  keyCode := 65
  modulationEnabled := false

/-- Scenario C engine: sample rate 48000, bpm 120, one active loop voice,
parameterised by transport position and voice position. -/
def c1engine (smp : List ℝ) (k : ℕ) (p : ℝ) : Engine where
  sampleRate := 48000
  bpm := 120
  globalSamplePosition := k
  metronomeEnabled := false
  metronomeVolume := 0.5
  modulationPreset := ModulationPreset.none
  masterVolume := 1
  sounds := c1sounds smp
  voices := fun i => if i = 0 then c1voice p else initVoice
  keyMappings := fun i => if 0 ≤ i ∧ i < 256 then some initMapping else Option.none

/-- The samples-per-beat value of scenario C. -/
theorem c1_spb : (⌊(48000 : ℝ) * 60 / 120⌋ : ℤ) = 24000 := by
  rw [show (48000 : ℝ) * 60 / 120 = ((24000 : ℤ) : ℝ) by norm_num]
  exact Int.floor_intCast 24000

/-- The quantised loop target of scenario C: one eighth note, 12000 samples. -/
theorem c1_round : jsRound ((11000 : ℝ) / 1 / (((24000 : ℤ) : ℝ) / 2)) = 1 := by
  unfold jsRound
  rw [Int.floor_eq_iff]
  constructor <;> push_cast <;> norm_num

/-- One in-buffer frame of the scenario voice: while the position is below
11000 the voice plays a sample and advances by one. -/
theorem c1_stepPlay (smp : List ℝ) (hlen : smp.length = 11000) (n : ℕ) (hn : n < 11000)
    (modulation : ℝ) :
    ∃ c, voiceFrame 48000 120 (c1sounds smp) modulation (c1voice (n : ℝ)) =
      some (c1voice ((n : ℝ) + 1), c) := by
  have hsnd : c1sounds smp (c1voice (n : ℝ)).soundIndex =
      some { samples := smp, length := smp.length, loaded := true } := by
    simp [c1sounds, c1voice]
  have hposlt : ⌊(c1voice (n : ℝ)).position⌋ <
      (({ samples := smp, length := smp.length, loaded := true } : Sound).length : ℤ) := by
    show ⌊((n : ℕ) : ℝ)⌋ < (smp.length : ℤ)
    rw [Int.floor_natCast, hlen]
    exact_mod_cast hn
  have htl : ((jsRound ((({ samples := smp, length := smp.length, loaded := true } : Sound).length : ℝ) /
        (c1voice (n : ℝ)).pitch / ((⌊(48000 : ℝ) * 60 / 120⌋ : ℤ) / 2 : ℝ)) : ℤ) : ℝ) *
        ((⌊(48000 : ℝ) * 60 / 120⌋ : ℤ) / 2 : ℝ) = 12000 := by
    show ((jsRound ((smp.length : ℝ) / (1 : ℝ) / ((⌊(48000 : ℝ) * 60 / 120⌋ : ℤ) / 2 : ℝ)) : ℤ) : ℝ) *
        ((⌊(48000 : ℝ) * 60 / 120⌋ : ℤ) / 2 : ℝ) = 12000
    rw [c1_spb, hlen]
    rw [show ((11000 : ℕ) : ℝ) = (11000 : ℝ) by norm_num]
    rw [c1_round]
    norm_num
  have hquant : (c1voice (n : ℝ)).mode = PlaybackMode.loop →
      ¬(((jsRound ((({ samples := smp, length := smp.length, loaded := true } : Sound).length : ℝ) /
            (c1voice (n : ℝ)).pitch / ((⌊(48000 : ℝ) * 60 / 120⌋ : ℤ) / 2 : ℝ)) : ℤ) : ℝ) *
            ((⌊(48000 : ℝ) * 60 / 120⌋ : ℤ) / 2 : ℝ) ≤ (c1voice (n : ℝ)).position ∧
        0 < ((jsRound ((({ samples := smp, length := smp.length, loaded := true } : Sound).length : ℝ) /
            (c1voice (n : ℝ)).pitch / ((⌊(48000 : ℝ) * 60 / 120⌋ : ℤ) / 2 : ℝ)) : ℤ) : ℝ) *
            ((⌊(48000 : ℝ) * 60 / 120⌋ : ℤ) / 2 : ℝ)) := by
    intro _
    rw [htl]
    rintro ⟨h1, _⟩
    have hn2 : ((n : ℕ) : ℝ) < 11000 := by exact_mod_cast hn
    have : (c1voice (n : ℝ)).position = ((n : ℕ) : ℝ) := rfl
    rw [this] at h1
    linarith
  obtain ⟨c, hc⟩ := voiceFrame_play 48000 120 (c1sounds smp) modulation (c1voice (n : ℝ))
    { samples := smp, length := smp.length, loaded := true } rfl hsnd rfl hposlt hquant
  exact ⟨c, hc⟩

/-- The wrap frame of the scenario voice: at position 11000 the raw-length
branch fires, the position wraps to 0 and the voice contributes silence. -/
theorem c1_stepWrap (smp : List ℝ) (hlen : smp.length = 11000) (modulation : ℝ) :
    voiceFrame 48000 120 (c1sounds smp) modulation (c1voice (11000 : ℝ)) =
      some (c1voice 0, 0) := by
  have hsnd : c1sounds smp (c1voice (11000 : ℝ)).soundIndex =
      some { samples := smp, length := smp.length, loaded := true } := by
    simp [c1sounds, c1voice]
  have hpos : (({ samples := smp, length := smp.length, loaded := true } : Sound).length : ℤ) ≤
      ⌊(c1voice (11000 : ℝ)).position⌋ := by
    show (smp.length : ℤ) ≤ ⌊(11000 : ℝ)⌋
    rw [hlen, show (11000 : ℝ) = ((11000 : ℤ) : ℝ) by norm_num, Int.floor_intCast]
    norm_num
  have h := voiceFrame_rawWrap 48000 120 (c1sounds smp) modulation (c1voice (11000 : ℝ))
    { samples := smp, length := smp.length, loaded := true } rfl hsnd rfl hpos rfl
  rw [h]
  have hp : (c1voice (11000 : ℝ)).position -
      ((({ samples := smp, length := smp.length, loaded := true } : Sound).length : ℕ) : ℝ) = 0 := by
    show (11000 : ℝ) - (smp.length : ℝ) = 0
    rw [hlen]
    norm_num
  have hv : ({ c1voice (11000 : ℝ) with position := (c1voice (11000 : ℝ)).position -
      ((({ samples := smp, length := smp.length, loaded := true } : Sound).length : ℕ) : ℝ) } : Voice) =
      c1voice 0 := by
    rw [hp]
    rfl
  exact congrArg some (Prod.ext hv rfl)

/-- Mixing the scenario pool for one frame: only voice 0 is active, so the
pool steps exactly as that voice does. -/
theorem c1_mix (smp : List ℝ) (k : ℕ) (p q c : ℝ)
    (hstep : voiceFrame 48000 120 (c1sounds smp) (calculateModulation (c1engine smp k p))
      (c1voice p) = some (c1voice q, c)) :
    mixVoices (c1engine smp k p).sampleRate (c1engine smp k p).bpm (c1engine smp k p).sounds
      (calculateModulation (c1engine smp k p)) (List.finRange 64) (c1engine smp k p).voices 0 =
      some ((c1engine smp (k + 1) q).voices, c) := by
  have hall : ∀ i ∈ List.finRange 64,
      voiceFrame 48000 120 (c1sounds smp) (calculateModulation (c1engine smp k p))
        ((c1engine smp k p).voices i) =
      some ((fun j : Fin 64 => if j = 0 then c1voice q else initVoice) i,
        (fun j : Fin 64 => if j = 0 then c else 0) i) := by
    intro i _
    by_cases hi : i = 0
    · subst hi
      simpa [c1engine] using hstep
    · have hv : (c1engine smp k p).voices i = initVoice := by
        simp [c1engine, hi]
      rw [hv, voiceFrame_inactive _ _ _ _ _ rfl]
      simp [hi]
  have hmix := mixVoices_eq 48000 120 (c1sounds smp) (calculateModulation (c1engine smp k p))
    (List.finRange 64) (c1engine smp k p).voices
    (fun j : Fin 64 => if j = 0 then c1voice q else initVoice)
    (fun j : Fin 64 => if j = 0 then c else 0) 0 (List.nodup_finRange 64) hall
  have hsum : ((List.finRange 64).map fun j : Fin 64 => if j = 0 then c else 0).sum = c := by
    rw [← Fin.sum_univ_def]
    simp
  rw [show (c1engine smp k p).sampleRate = (48000 : ℝ) from rfl,
    show (c1engine smp k p).bpm = (120 : ℝ) from rfl,
    show (c1engine smp k p).sounds = c1sounds smp from rfl, hmix]
  refine congrArg some (Prod.ext ?_ ?_)
  · funext j
    simp [c1engine]
  · rw [hsum]
    ring

/-- One full frame of `process` on the scenario engine, given the voice's
one-frame behaviour. -/
theorem c1_processFrame (smp : List ℝ) (k : ℕ) (p q c : ℝ)
    (hstep : voiceFrame 48000 120 (c1sounds smp) (calculateModulation (c1engine smp k p))
      (c1voice p) = some (c1voice q, c)) :
    processFrame (c1engine smp k p) =
      some (c1engine smp (k + 1) q,
        softClip ((c + generateMetronomeSample (c1engine smp k p)) *
          (c1engine smp k p).masterVolume)) := by
  have h := processFrame_eq_of_mix (c1engine smp k p) (c1engine smp (k + 1) q).voices c
    (c1_mix smp k p q c hstep)
  rw [h]
  rfl

/-- The wrap frame of `process` on the scenario engine: the output sample of
the frame in which the voice wraps is exactly zero. -/
theorem c1_wrapFrame (smp : List ℝ) (hlen : smp.length = 11000) (k : ℕ) :
    processFrame (c1engine smp k (11000 : ℝ)) = some (c1engine smp (k + 1) 0, 0) := by
  have h := c1_processFrame smp k (11000 : ℝ) 0 0
    (c1_stepWrap smp hlen (calculateModulation (c1engine smp k (11000 : ℝ))))
  rw [h]
  have hmet : generateMetronomeSample (c1engine smp k (11000 : ℝ)) = 0 := by
    unfold generateMetronomeSample
    have hc : (c1engine smp k (11000 : ℝ)).metronomeEnabled = false := rfl
    rw [if_pos hc]
  rw [hmet]
  rw [show ((0 : ℝ) + 0) * (c1engine smp k (11000 : ℝ)).masterVolume = 0 by ring]
  rw [softClip_of_abs_lt (by norm_num)]

/-- Running the scenario block by block: as long as the raw buffer end is
not reached, the voice position equals the number of frames rendered. -/
theorem c1_run (smp : List ℝ) (hlen : smp.length = 11000) :
    ∀ n j : ℕ, j + n ≤ 11000 →
      ∃ out, processBlock (c1engine smp j ((j : ℕ) : ℝ)) n =
        some (c1engine smp (j + n) (((j + n : ℕ) : ℕ) : ℝ), out) := by
  intro n
  induction n with
  | zero =>
    intro j h
    exact ⟨[], rfl⟩
  | succ n ih =>
    intro j h
    have hj : j < 11000 := by omega
    obtain ⟨c, hstep⟩ := c1_stepPlay smp hlen j hj
      (calculateModulation (c1engine smp j ((j : ℕ) : ℝ)))
    have hframe := c1_processFrame smp j ((j : ℕ) : ℝ) ((j : ℝ) + 1) c hstep
    obtain ⟨out, hrest⟩ := ih (j + 1) (by omega)
    have hcast : (((j + 1 : ℕ) : ℕ) : ℝ) = (j : ℝ) + 1 := by push_cast; ring
    rw [hcast] at hrest
    have hb := processBlock_succ_of_frame _ n _ _ hframe _ out hrest
    have harith : j + 1 + n = j + (n + 1) := by omega
    rw [harith] at hb
    exact ⟨_, hb⟩

/-- Splitting a block run into two consecutive runs. -/
theorem processBlock_add (e : Engine) (n m : ℕ) :
    processBlock e (n + m) = (processBlock e n).bind fun r =>
      (processBlock r.1 m).map fun q => (q.1, r.2 ++ q.2) := by
  induction n generalizing e with
  | zero =>
    rw [Nat.zero_add]
    show processBlock e m = (some (e, ([] : List ℝ))).bind fun r =>
      (processBlock r.1 m).map fun q => (q.1, r.2 ++ q.2)
    cases h : processBlock e m with
    | none => simp [h]
    | some q => simp [h]
  | succ n ih =>
    rw [Nat.succ_add, processBlock]
    cases hf : processFrame e with
    | none =>
      rw [processBlock]
      rw [hf]
      rfl
    | some p =>
      dsimp only
      rw [ih p.1]
      rw [processBlock, hf]
      dsimp only
      cases hr : processBlock p.1 n with
      | none => rfl
      | some r =>
        cases hq : processBlock r.1 m with
        | none => simp [hq]
        | some q => simp [hq]

/-- C1 (amended): in scenario C the voice wraps at the RAW buffer length
11000, not at the quantised target 12000.  For every frame count up to
11000 the voice position simply equals the frame count (so it never enters
the range `[11000, 12000)` that the claim's story requires); the 11001st
frame takes the `idx >= length` loop branch, wraps the position back to 0
and contributes exactly one frame of silence (the block's last stereo pair
is `[0, 0]`). -/
theorem loop_wrap_at_raw_length (smp : List ℝ) (hlen : smp.length = 11000) :
    (∀ n : ℕ, n ≤ 11000 → ∃ out, processBlock (c1engine smp 0 0) n =
      some (c1engine smp n ((n : ℕ) : ℝ), out)) ∧
    (∃ out, processBlock (c1engine smp 0 0) 11001 =
      some (c1engine smp 11001 0, out ++ [0, 0])) := by
  have hzero : (((0 : ℕ) : ℕ) : ℝ) = (0 : ℝ) := by norm_num
  have hmain : ∀ n : ℕ, n ≤ 11000 → ∃ out, processBlock (c1engine smp 0 0) n =
      some (c1engine smp n ((n : ℕ) : ℝ), out) := by
    intro n hn
    obtain ⟨out, h⟩ := c1_run smp hlen n 0 (by omega)
    rw [hzero, Nat.zero_add] at h
    exact ⟨out, h⟩
  refine ⟨hmain, ?_⟩
  obtain ⟨out, h1⟩ := hmain 11000 le_rfl
  have hcast : (((11000 : ℕ) : ℕ) : ℝ) = (11000 : ℝ) := by norm_num
  rw [hcast] at h1
  have hone : processBlock (c1engine smp 11000 (11000 : ℝ)) 1 =
      some (c1engine smp 11001 0, [0, 0]) :=
    processBlock_succ_of_frame _ 0 _ _ (c1_wrapFrame smp hlen 11000) _ [] rfl
  refine ⟨out, ?_⟩
  rw [show (11001 : ℕ) = 11000 + 1 by norm_num, processBlock_add, h1]
  simp [hone]

/-- C1 counterexample: run scenario C (a constant buffer of 11000 ones) for
11001 frames.  The claim predicts the voice is still advancing toward the
quantised wrap at 12000, so its position would be 11001; in fact the raw
`idx >= length` branch already wrapped it back to 0. -/
theorem loop_wrap_at_quantized_length_refuted :
    ((processBlock (c1engine (List.replicate 11000 (1 : ℝ)) 0 0) 11001).map
      fun r => ((r.1).voices 0).position) = some 0 ∧
    ((processBlock (c1engine (List.replicate 11000 (1 : ℝ)) 0 0) 11001).map
      fun r => ((r.1).voices 0).position) ≠ some 11001 := by
  have hlen : (List.replicate 11000 (1 : ℝ)).length = 11000 := List.length_replicate 11000 1
  have hzero : (((0 : ℕ) : ℕ) : ℝ) = (0 : ℝ) := by norm_num
  obtain ⟨out, h1⟩ := c1_run (List.replicate 11000 1) hlen 11000 0 (by omega)
  rw [hzero, Nat.zero_add] at h1
  have hcast : (((11000 : ℕ) : ℕ) : ℝ) = (11000 : ℝ) := by norm_num
  rw [hcast] at h1
  have hone : processBlock (c1engine (List.replicate 11000 (1 : ℝ)) 11000 (11000 : ℝ)) 1 =
      some (c1engine (List.replicate 11000 (1 : ℝ)) 11001 0, [0, 0]) :=
    processBlock_succ_of_frame _ 0 _ _ (c1_wrapFrame (List.replicate 11000 1) hlen 11000) _ [] rfl
  have hall : processBlock (c1engine (List.replicate 11000 (1 : ℝ)) 0 0) 11001 =
      some (c1engine (List.replicate 11000 (1 : ℝ)) 11001 0, out ++ [0, 0]) := by
    rw [show (11001 : ℕ) = 11000 + 1 by norm_num, processBlock_add, h1, Option.some_bind]
    dsimp only
    rw [hone, Option.map_some']
  rw [hall]
  have hpos : ((c1engine (List.replicate 11000 (1 : ℝ)) 11001 0).voices 0).position = 0 := rfl
  constructor
  · rw [Option.map_some', hpos]
  · intro hcon
    rw [Option.map_some'] at hcon
    have h0 := Option.some.inj hcon
    rw [hpos] at h0
    norm_num at h0

/-- C1 witness: the amended theorem applied to the constant test buffer; the
11001-frame run succeeds. -/
theorem loop_wrap_at_raw_length_witness :
    (processBlock (c1engine (List.replicate 11000 (1 : ℝ)) 0 0) 11001).isSome = true := by
  obtain ⟨out, h⟩ := (loop_wrap_at_raw_length (List.replicate 11000 1)
    (List.length_replicate 11000 1)).2
  rw [h]
  rfl

end Qeyloop
